import Mathlib

/-!
Verification of the `Slots` fixed-capacity slab allocator.

This file gives a shallow embedding of the crate's core data structures and
operations, translated from the Rust sources:

* `src/private.rs`  — the `Entry` tagged union;
* `src/unrestricted.rs` — `UnrestrictedSlots` (items array, `next_free`,
  `count`) with `new`, `free`, `alloc`, `store`, `take`, `read`, `modify`;
* `src/slotmap.rs` — `SlotMap`, the generational-handle layer, wrapping an
  unrestricted-style allocator that stores `(check, item)` pairs.

Modelling conventions:

* A Rust `usize` is modelled as `Nat`; wrapping arithmetic (`wrapping_add`,
  shifts feeding a 64-bit word) is made explicit with `% 2 ^ usizeBits`.
* The fixed-size array `[Entry<IT>; N]` is modelled as a `List (Entry IT)`
  of length `N`; `capacity` is the list length, which every operation
  preserves.
* A Rust panic (out-of-bounds indexing `self.items[key]`, the
  `unreachable!("Non-empty item in entry behind free chain")` in `alloc`,
  the `.expect("Item was checked to be present")` in `SlotMap::take`) is
  modelled by the operation returning `none`; a normal return `r` together
  with the post-state `s` is `some (r, s)`.  In particular
  `take s key = some (none, s')` is a *normal* `None` return, while
  `take s key = none` is a fault.
* Rust visitor closures (`FnOnce`) may carry mutable captured state; `read`
  and `modify` therefore thread an explicit visitor state `σ` through the
  callback, so that "the visitor is invoked exactly once / not at all" is
  expressible: the callback is a pure function and the returned visitor
  state shows how many times it was applied.
-/

/-- `Entry<IT>` from `src/private.rs`: a slot is either occupied (`Used`),
or free and pointing at the next free slot (`EmptyNext`), or the last free
slot of the chain (`EmptyLast`). -/
inductive Entry (IT : Type) where
  | Used : IT → Entry IT
  | EmptyNext : Nat → Entry IT
  | EmptyLast : Entry IT
  deriving DecidableEq

/-- `Entry::Used` recogniser (used to count occupied slots). -/
def Entry.isUsed {IT : Type} : Entry IT → Bool
  | Entry.Used _ => true
  | _ => false

/-- `UnrestrictedSlots<IT, N>` from `src/unrestricted.rs`: the items array,
the index of the free-stack top, and the number of occupied slots. -/
structure UnrestrictedSlots (IT : Type) where
  items : List (Entry IT)
  next_free : Nat
  count : Nat
  deriving DecidableEq

namespace UnrestrictedSlots

variable {IT σ T : Type}

/-- `capacity()`: returns `N`; in the model, the length of the items list
(every operation preserves it). -/
def capacity (s : UnrestrictedSlots IT) : Nat := s.items.length

/-- `is_full()`: `self.count == self.capacity()`. -/
def is_full (s : UnrestrictedSlots IT) : Bool := s.count == s.capacity

/-- The initialiser closure of `new`: slot `i` holds
`i.checked_sub(1).map(Entry::EmptyNext).unwrap_or(Entry::EmptyLast)`. -/
def freshEntry (IT : Type) : Nat → Entry IT
  | 0 => Entry.EmptyLast
  | Nat.succ j => Entry.EmptyNext j

/-- `UnrestrictedSlots::new()`: slots chained free, `next_free = N.saturating_sub(1)`
(`Nat` subtraction is saturating), `count = 0`. -/
def new (IT : Type) (N : Nat) : UnrestrictedSlots IT :=
  { items := (List.range N).map (freshEntry IT)
    next_free := N - 1
    count := 0 }

/-- `free(idx)`: push `idx` onto the free stack.  Writes `EmptyLast` when the
collection was full, otherwise `EmptyNext(next_free)`; sets `next_free = idx`;
decrements `count`.  (The `debug_assert!(self.count != 0)` cannot fire at the
call sites proved reachable below, where `count` equals the number of `Used`
slots and a `Used` slot was just vacated.) -/
def free (s : UnrestrictedSlots IT) (idx : Nat) : UnrestrictedSlots IT :=
  { items := s.items.set idx
      (if s.is_full then Entry.EmptyLast else Entry.EmptyNext s.next_free)
    next_free := idx
    count := s.count - 1 }

/-- `alloc()`: `None` when full, else pop the free-stack top.  The outer
`Option` is the panic marker: `self.items[index]` with `index` out of range,
or the `unreachable!("Non-empty item in entry behind free chain")` arm, are
faults. -/
def alloc (s : UnrestrictedSlots IT) : Option (Option Nat × UnrestrictedSlots IT) :=
  if s.is_full then
    some (none, s)
  else
    match s.items[s.next_free]? with
    | some (Entry.EmptyNext n) =>
        some (some s.next_free, { s with next_free := n, count := s.count + 1 })
    | some Entry.EmptyLast =>
        some (some s.next_free, { s with next_free := 0, count := s.count + 1 })
    | some (Entry.Used _) => none
    | none => none

/-- `store(item)`: on `alloc` success write `Used(item)` and return the index,
otherwise hand the item back as `Err(item)`. -/
def store (s : UnrestrictedSlots IT) (item : IT) :
    Option (Except IT Nat × UnrestrictedSlots IT) :=
  match s.alloc with
  | some (some i, s1) =>
      some (Except.ok i, { s1 with items := s1.items.set i (Entry.Used item) })
  | some (none, s1) => some (Except.error item, s1)
  | none => none

/-- `take(key)`: `replace(&mut self.items[key], Entry::EmptyLast)`, then run
`free` and return the item when the old entry was `Used`, otherwise return
`None` — with the `EmptyLast` left in place.  Out-of-range `key` faults. -/
def take (s : UnrestrictedSlots IT) (key : Nat) :
    Option (Option IT × UnrestrictedSlots IT) :=
  match s.items[key]? with
  | none => none
  | some old =>
      let s1 := { s with items := s.items.set key Entry.EmptyLast }
      match old with
      | Entry.Used item => some (some item, s1.free key)
      | _ => some (none, s1)

/-- `read(key, function)`: bounds-checked; invokes the visitor (with its
threaded state `v`) only on a `Used` slot. -/
def read (s : UnrestrictedSlots IT) (key : Nat) (function : σ → IT → σ × T)
    (v : σ) : σ × Option T :=
  if key ≥ s.capacity then (v, none)
  else
    match s.items[key]? with
    | some (Entry.Used item) =>
        let r := function v item
        (r.1, some r.2)
    | _ => (v, none)

/-- `modify(key, function)`: *not* bounds-checked (`match self.items[key]`);
invokes the visitor on a `Used` slot with mutable access, modelled by the
callback returning the replacement item together with its result. -/
def modify (s : UnrestrictedSlots IT) (key : Nat)
    (function : σ → IT → σ × IT × T) (v : σ) :
    Option (σ × Option T × UnrestrictedSlots IT) :=
  match s.items[key]? with
  | none => none
  | some (Entry.Used item) =>
      let r := function v item
      some (r.1, some r.2.2, { s with items := s.items.set key (Entry.Used r.2.1) })
  | some _ => some (v, none, s)

end UnrestrictedSlots

/-- Number of `Used` slots in an items list. -/
def usedCount {IT : Type} (l : List (Entry IT)) : Nat := l.countP Entry.isUsed

deriving instance DecidableEq for Except

section SanityChecks

-- Doc example of `src/unrestricted.rs`: capacity 2, two stores succeed,
-- the third returns `Err(8)`.
example :
    (UnrestrictedSlots.new Nat 2).store 2 =
      some (Except.ok 1, ⟨[Entry.EmptyLast, Entry.Used 2], 0, 1⟩) := by decide

example :
    UnrestrictedSlots.store (⟨[Entry.Used 4, Entry.Used 2], 0, 2⟩ :
        UnrestrictedSlots Nat) 8 =
      some (Except.error 8, ⟨[Entry.Used 4, Entry.Used 2], 0, 2⟩) := by decide

-- take on a used slot returns the item.
example :
    UnrestrictedSlots.take (⟨[Entry.EmptyLast, Entry.Used 2], 0, 1⟩ :
        UnrestrictedSlots Nat) 1 =
      some (some 2, ⟨[Entry.EmptyLast, Entry.EmptyNext 0], 1, 0⟩) := by decide

end SanityChecks

namespace UnrestrictedSlots

variable {IT σ T : Type}

lemma lt_length_of_getElem? {l : List (Entry IT)} {i : Nat} {e : Entry IT}
    (h : l[i]? = some e) : i < l.length := by
  by_contra hn
  rw [List.getElem?_eq_none (by omega)] at h
  cases h

lemma is_full_false_iff {s : UnrestrictedSlots IT} :
    (s.is_full = false) ↔ s.count ≠ s.items.length := by
  simp [is_full, capacity]

lemma is_full_true_iff {s : UnrestrictedSlots IT} :
    (s.is_full = true) ↔ s.count = s.items.length := by
  simp [is_full, capacity]

/-- Successful allocation from an `EmptyNext` top of the free stack. -/
lemma store_emptyNext {s : UnrestrictedSlots IT} {n : Nat} (x : IT)
    (hfull : s.count ≠ s.items.length)
    (he : s.items[s.next_free]? = some (Entry.EmptyNext n)) :
    s.store x = some (Except.ok s.next_free,
      ⟨s.items.set s.next_free (Entry.Used x), n, s.count + 1⟩) := by
  rw [store, alloc, if_neg (by simp [is_full_false_iff.mpr hfull]), he]

/-- Successful allocation from an `EmptyLast` top of the free stack. -/
lemma store_emptyLast {s : UnrestrictedSlots IT} (x : IT)
    (hfull : s.count ≠ s.items.length)
    (he : s.items[s.next_free]? = some Entry.EmptyLast) :
    s.store x = some (Except.ok s.next_free,
      ⟨s.items.set s.next_free (Entry.Used x), 0, s.count + 1⟩) := by
  rw [store, alloc, if_neg (by simp [is_full_false_iff.mpr hfull]), he]

/-- `store` on a full pool: the item is handed back, the state untouched. -/
lemma store_full {s : UnrestrictedSlots IT} (x : IT)
    (hfull : s.count = s.items.length) :
    s.store x = some (Except.error x, s) := by
  rw [store, alloc, if_pos (is_full_true_iff.mpr hfull)]

/-- `take` on a `Used` slot: the item moves out and `free` runs (the two
writes to `items[key]` collapse into one). -/
lemma take_used {s : UnrestrictedSlots IT} {k : Nat} {it : IT}
    (hk : s.items[k]? = some (Entry.Used it)) :
    s.take k = some (some it,
      ⟨s.items.set k
          (if s.count = s.items.length then Entry.EmptyLast
           else Entry.EmptyNext s.next_free),
        k, s.count - 1⟩) := by
  rw [take, hk]
  simp only [free, is_full, capacity, List.length_set, List.set_set]
  by_cases h : s.count = s.items.length <;> simp [h]

/-- `take` on an in-range slot that is not `Used`: returns `None` but leaves
`EmptyLast` in the slot (the `replace` result is not written back). -/
lemma take_not_used {s : UnrestrictedSlots IT} {k : Nat} {e : Entry IT}
    (hk : s.items[k]? = some e) (hne : e.isUsed = false) :
    s.take k = some (none, { s with items := s.items.set k Entry.EmptyLast }) := by
  rw [take, hk]
  cases e with
  | Used _ => simp [Entry.isUsed] at hne
  | EmptyNext _ => rfl
  | EmptyLast => rfl

/-- `read` on a `Used` slot: the visitor runs exactly once, on the item. -/
lemma read_used {s : UnrestrictedSlots IT} {k : Nat} {it : IT}
    (hk : s.items[k]? = some (Entry.Used it)) (f : σ → IT → σ × T) (v : σ) :
    s.read k f v = ((f v it).1, some (f v it).2) := by
  rw [read, if_neg (by simp [capacity]; exact lt_length_of_getElem? hk), hk]

/-- `read` anywhere else: the visitor state comes back untouched, the result
is `none` — the visitor is never applied. -/
lemma read_not_used {s : UnrestrictedSlots IT} {k : Nat}
    (hk : ∀ it : IT, s.items[k]? ≠ some (Entry.Used it))
    (f : σ → IT → σ × T) (v : σ) :
    s.read k f v = (v, none) := by
  rw [read]
  by_cases hc : k ≥ s.capacity
  · rw [if_pos hc]
  · rw [if_neg hc]
    cases he : s.items[k]? with
    | none => rfl
    | some e =>
      cases e with
      | Used it => exact absurd he (hk it)
      | EmptyNext _ => rfl
      | EmptyLast => rfl

/-- `modify` on a `Used` slot: the visitor runs exactly once; its replacement
item is written back. -/
lemma modify_used {s : UnrestrictedSlots IT} {k : Nat} {it : IT}
    (hk : s.items[k]? = some (Entry.Used it)) (f : σ → IT → σ × IT × T) (v : σ) :
    s.modify k f v = some ((f v it).1, some (f v it).2.2,
      { s with items := s.items.set k (Entry.Used (f v it).2.1) }) := by
  rw [modify, hk]

/-- `modify` on an in-range slot that is not `Used`: pure no-op `None`. -/
lemma modify_not_used {s : UnrestrictedSlots IT} {k : Nat} {e : Entry IT}
    (hk : s.items[k]? = some e) (hne : e.isUsed = false)
    (f : σ → IT → σ × IT × T) (v : σ) :
    s.modify k f v = some (v, none, s) := by
  rw [modify, hk]
  cases e with
  | Used _ => simp [Entry.isUsed] at hne
  | EmptyNext _ => rfl
  | EmptyLast => rfl

/-- `modify` out of range: `self.items[key]` faults. -/
lemma modify_oob {s : UnrestrictedSlots IT} {k : Nat}
    (hk : s.items.length ≤ k) (f : σ → IT → σ × IT × T) (v : σ) :
    s.modify k f v = none := by
  rw [modify, List.getElem?_eq_none hk]

/-- `take` out of range: `self.items[key]` faults. -/
lemma take_oob {s : UnrestrictedSlots IT} {k : Nat} (hk : s.items.length ≤ k) :
    s.take k = none := by
  rw [take, List.getElem?_eq_none hk]

end UnrestrictedSlots

/-- C1 (amended): for every allocator state and every index `idx ≥ capacity`,
`read(idx, visitor)` returns `None` without invoking the visitor and without
any fault; `take(idx)` and `modify(idx, visitor)`, however, perform the
unchecked array access `self.items[key]` and fault (index-out-of-bounds
panic, modelled by `none`) instead of returning `None`. -/
theorem oob_read_none_take_modify_fault {IT σ σ2 T T2 : Type}
    (s : UnrestrictedSlots IT) (idx : Nat) (h : s.capacity ≤ idx)
    (f : σ → IT → σ × T) (v : σ) (g : σ2 → IT → σ2 × IT × T2) (w : σ2) :
    s.read idx f v = (v, none) ∧ s.take idx = none ∧ s.modify idx g w = none := by
  refine ⟨?_, UnrestrictedSlots.take_oob h, UnrestrictedSlots.modify_oob h g w⟩
  rw [UnrestrictedSlots.read, if_pos h]

/-- C1 counterexample: on a fresh allocator of capacity 2, `take 2` is an
out-of-bounds fault (`none`, the panic marker), not the normal return
`some (none, _)` the claim requires. -/
theorem take_oob_faults_cex : (UnrestrictedSlots.new Nat 2).take 2 = none := by
  decide

/-- C1 witness: the amended theorem applied at a concrete state and index. -/
theorem oob_amended_witness :
    (UnrestrictedSlots.new Nat 1).read 1 (fun (c : Nat) it => (c + 1, it)) 0 = (0, none) ∧
    (UnrestrictedSlots.new Nat 1).take 1 = none ∧
    (UnrestrictedSlots.new Nat 1).modify 1 (fun (c : Nat) it => (c + 1, it, it)) 0 = none :=
  oob_read_none_take_modify_fault (UnrestrictedSlots.new Nat 1) 1 (by decide)
    (fun c it => (c + 1, it)) 0 (fun c it => (c + 1, it, it)) 0

/-- C2 (amended): for every state and index, `read` invokes the visitor
exactly once and returns `Some` of its result iff the slot is `Used` (the
visitor state is threaded through exactly one application), and otherwise —
free slot or out-of-range index — leaves the visitor state untouched (zero
invocations) and returns `None`.  The same holds for `modify` on in-range
indices; `modify` with an out-of-range index faults (without invoking the
visitor) instead of returning `None`. -/
theorem visitor_once_iff_used {IT σ σ2 T T2 : Type}
    (s : UnrestrictedSlots IT) (idx : Nat)
    (f : σ → IT → σ × T) (v : σ) (g : σ2 → IT → σ2 × IT × T2) (w : σ2) :
    (∀ it : IT, s.items[idx]? = some (Entry.Used it) →
      s.read idx f v = ((f v it).1, some (f v it).2) ∧
      s.modify idx g w = some ((g w it).1, some (g w it).2.2,
        { s with items := s.items.set idx (Entry.Used (g w it).2.1) })) ∧
    ((∀ it : IT, s.items[idx]? ≠ some (Entry.Used it)) →
      s.read idx f v = (v, none) ∧
      (idx < s.capacity → s.modify idx g w = some (w, none, s)) ∧
      (s.capacity ≤ idx → s.modify idx g w = none)) := by
  constructor
  · intro it hit
    exact ⟨UnrestrictedSlots.read_used hit f v, UnrestrictedSlots.modify_used hit g w⟩
  · intro hno
    refine ⟨UnrestrictedSlots.read_not_used hno f v, ?_, fun h => UnrestrictedSlots.modify_oob h g w⟩
    intro hlt
    cases he : s.items[idx]? with
    | none =>
        rw [List.getElem?_eq_none_iff] at he
        exact absurd hlt (by simp [UnrestrictedSlots.capacity]; omega)
    | some e =>
        cases e with
        | Used it => exact absurd he (hno it)
        | EmptyNext n => exact UnrestrictedSlots.modify_not_used he rfl g w
        | EmptyLast => exact UnrestrictedSlots.modify_not_used he rfl g w

/-- C2 counterexample: a counting visitor passed to `modify` at the
out-of-range index 1 of a fresh capacity-1 allocator: the code faults
(`none`) instead of performing the claimed visitor-not-invoked `None`
return. -/
theorem modify_oob_faults_cex :
    (UnrestrictedSlots.new Nat 1).modify 1 (fun (c : Nat) it => (c + 1, it, it)) 0 = none := by
  decide

/-- C2 witness: the amended theorem applied at a concrete state, a `Used`
slot and a counting visitor (one invocation), and at a free slot (zero
invocations). -/
theorem visitor_once_witness :
    (UnrestrictedSlots.read (⟨[Entry.Used 5, Entry.EmptyLast], 1, 1⟩ : UnrestrictedSlots Nat)
        0 (fun (c : Nat) it => (c + 1, it + 2)) 0 = (1, some 7)) ∧
    (UnrestrictedSlots.read (⟨[Entry.Used 5, Entry.EmptyLast], 1, 1⟩ : UnrestrictedSlots Nat)
        1 (fun (c : Nat) it => (c + 1, it + 2)) 0 = (0, none)) := by
  constructor
  · exact ((visitor_once_iff_used _ 0 (fun (c : Nat) it => (c + 1, it + 2)) 0
      (fun (c : Nat) it => (c + 1, it, it)) 0).1 5 (by decide)).1
  · exact ((visitor_once_iff_used _ 1 (fun (c : Nat) it => (c + 1, it + 2)) 0
      (fun (c : Nat) it => (c + 1, it, it)) 0).2 (by intro it h; simp at h)).1

lemma store_ok_frame {IT : Type} (s : UnrestrictedSlots IT) (x : IT)
    (i : Nat) (s2 : UnrestrictedSlots IT)
    (h : s.store x = some (Except.ok i, s2)) :
    s2.items[i]? = some (Entry.Used x) ∧
    (∀ j, j ≠ i → s2.items[j]? = s.items[j]?) ∧
    s2.count = s.count + 1 ∧ s2.capacity = s.capacity := by
  rw [UnrestrictedSlots.store, UnrestrictedSlots.alloc] at h
  by_cases hfull : s.is_full = true
  · rw [if_pos hfull] at h; cases h
  · rw [if_neg hfull] at h
    have hlen : ∀ (e : Entry IT), s.items[s.next_free]? = some e →
        s.next_free < s.items.length := fun _ he =>
      UnrestrictedSlots.lt_length_of_getElem? he
    cases he : s.items[s.next_free]? with
    | none => rw [he] at h; cases h
    | some e =>
      rw [he] at h
      cases e with
      | Used _ => cases h
      | EmptyNext n =>
        obtain ⟨hi, hs⟩ : i = s.next_free ∧
            s2 = ⟨s.items.set s.next_free (Entry.Used x), n, s.count + 1⟩ := by
          cases h; exact ⟨rfl, rfl⟩
        subst hi; subst hs
        refine ⟨List.getElem?_set_self (hlen _ he), fun j hj => List.getElem?_set_ne ?_, rfl, ?_⟩
        · omega
        · simp [UnrestrictedSlots.capacity]
      | EmptyLast =>
        obtain ⟨hi, hs⟩ : i = s.next_free ∧
            s2 = ⟨s.items.set s.next_free (Entry.Used x), 0, s.count + 1⟩ := by
          cases h; exact ⟨rfl, rfl⟩
        subst hi; subst hs
        refine ⟨List.getElem?_set_self (hlen _ he), fun j hj => List.getElem?_set_ne ?_, rfl, ?_⟩
        · omega
        · simp [UnrestrictedSlots.capacity]

/-- C10: whenever `store` succeeds with index `i`, slot `i` becomes
`Used(item)`, every other slot is unchanged, and (besides `next_free`) the
only other update is `count` increasing by one; the capacity is unchanged. -/
theorem store_frame_condition {IT : Type} (s : UnrestrictedSlots IT) (x : IT)
    (i : Nat) (s2 : UnrestrictedSlots IT)
    (h : s.store x = some (Except.ok i, s2)) :
    s2.items[i]? = some (Entry.Used x) ∧
    (∀ j, j ≠ i → s2.items[j]? = s.items[j]?) ∧
    s2.count = s.count + 1 ∧ s2.capacity = s.capacity :=
  store_ok_frame s x i s2 h

/-- C10 witness: the frame theorem applied to a concrete successful store. -/
theorem store_frame_witness :
    ((⟨[Entry.EmptyNext 1, Entry.EmptyLast, Entry.Used 9], 0, 1⟩ :
        UnrestrictedSlots Nat).store 7).map (fun r => r.2.items[0]?) =
      some (some (Entry.Used 7)) ∧
    ((⟨[Entry.EmptyNext 1, Entry.EmptyLast, Entry.Used 9], 0, 1⟩ :
        UnrestrictedSlots Nat).store 7).map (fun r => r.2.items[2]?) =
      some (some (Entry.Used 9)) := by
  have h : (⟨[Entry.EmptyNext 1, Entry.EmptyLast, Entry.Used 9], 0, 1⟩ :
      UnrestrictedSlots Nat).store 7 =
      some (Except.ok 0, ⟨[Entry.Used 7, Entry.EmptyLast, Entry.Used 9], 1, 2⟩) := by
    decide
  have hf := store_frame_condition _ 7 0 _ h
  rw [h]
  exact ⟨by simp [hf.1], by simp [hf.2.1 2 (by omega)]⟩

lemma countP_set_add {α : Type} (p : α → Bool) (l : List α) (i : Nat) (a b : α)
    (h : l[i]? = some b) :
    (l.set i a).countP p + (if p b then 1 else 0) =
      l.countP p + (if p a then 1 else 0) := by
  induction l generalizing i with
  | nil => cases h
  | cons c t ih =>
    cases i with
    | zero =>
      obtain rfl : c = b := by simpa using h
      simp only [List.set_cons_zero, List.countP_cons]
      omega
    | succ k =>
      have h2 : t[k]? = some b := by simpa using h
      have h3 := ih k h2
      simp only [List.set_cons_succ, List.countP_cons]
      omega

lemma usedCount_new (IT : Type) (N : Nat) :
    usedCount ((List.range N).map (UnrestrictedSlots.freshEntry IT)) = 0 := by
  rw [usedCount, List.countP_eq_zero]
  intro e he
  rw [List.mem_map] at he
  obtain ⟨i, _, rfl⟩ := he
  cases i <;> simp [UnrestrictedSlots.freshEntry, Entry.isUsed]

/-- States reachable from a freshly constructed allocator through the public
operations.  `read` takes `&self` and never changes the state, so it
contributes no step; an arbitrary `modify` visitor's effect on the *state*
is exactly that of the item-update function `g` it applies to the stored
item, so the `modify` step quantifies over `g : IT → IT`. -/
inductive Reach (IT : Type) : UnrestrictedSlots IT → Prop where
  | new (N : Nat) : Reach IT (UnrestrictedSlots.new IT N)
  | store {s : UnrestrictedSlots IT} {x : IT} {r : Except IT Nat}
      {s2 : UnrestrictedSlots IT} :
      Reach IT s → s.store x = some (r, s2) → Reach IT s2
  | take {s : UnrestrictedSlots IT} {k : Nat} {r : Option IT}
      {s2 : UnrestrictedSlots IT} :
      Reach IT s → s.take k = some (r, s2) → Reach IT s2
  | modify {s : UnrestrictedSlots IT} {k : Nat} {g : IT → IT} {a : Unit}
      {r : Option Unit} {s2 : UnrestrictedSlots IT} :
      Reach IT s →
      s.modify k (fun (u : Unit) it => (u, g it, u)) () = some (a, r, s2) →
      Reach IT s2

lemma store_count_step {IT : Type} {s : UnrestrictedSlots IT} {x : IT}
    {r : Except IT Nat} {s2 : UnrestrictedSlots IT}
    (h : s.store x = some (r, s2)) :
    s2 = s ∨ (s2.count = s.count + 1 ∧ usedCount s2.items = usedCount s.items + 1) := by
  rw [UnrestrictedSlots.store, UnrestrictedSlots.alloc] at h
  by_cases hfull : s.is_full = true
  · rw [if_pos hfull] at h
    cases h
    exact Or.inl rfl
  · rw [if_neg hfull] at h
    cases he : s.items[s.next_free]? with
    | none => rw [he] at h; cases h
    | some e =>
      rw [he] at h
      cases e with
      | Used _ => cases h
      | EmptyNext n =>
        cases h
        refine Or.inr ⟨rfl, ?_⟩
        have := countP_set_add Entry.isUsed s.items s.next_free
          (Entry.Used x) (Entry.EmptyNext n) he
        simp [Entry.isUsed, usedCount] at this ⊢
        omega
      | EmptyLast =>
        cases h
        refine Or.inr ⟨rfl, ?_⟩
        have := countP_set_add Entry.isUsed s.items s.next_free
          (Entry.Used x) Entry.EmptyLast he
        simp [Entry.isUsed, usedCount] at this ⊢
        omega

lemma take_count_step {IT : Type} {s : UnrestrictedSlots IT} {k : Nat}
    {r : Option IT} {s2 : UnrestrictedSlots IT}
    (h : s.take k = some (r, s2)) (hinv : s.count = usedCount s.items) :
    s2.count = usedCount s2.items := by
  cases he : s.items[k]? with
  | none => rw [UnrestrictedSlots.take, he] at h; cases h
  | some e =>
    cases he2 : e.isUsed with
    | true =>
      cases e with
      | Used it =>
        rw [UnrestrictedSlots.take_used he] at h
        cases h
        have hcnt := countP_set_add Entry.isUsed s.items k
          (if s.count = s.items.length then Entry.EmptyLast
           else Entry.EmptyNext s.next_free) (Entry.Used it) he
        have hnu : Entry.isUsed (if s.count = s.items.length then
            (Entry.EmptyLast : Entry IT) else Entry.EmptyNext s.next_free) = false := by
          split <;> rfl
        rw [hnu] at hcnt
        simp [Entry.isUsed] at hcnt
        simp only [usedCount] at hinv ⊢
        omega
      | EmptyNext _ => simp [Entry.isUsed] at he2
      | EmptyLast => simp [Entry.isUsed] at he2
    | false =>
      rw [UnrestrictedSlots.take_not_used he he2] at h
      cases h
      have hcnt := countP_set_add Entry.isUsed s.items k Entry.EmptyLast e he
      rw [he2] at hcnt
      simp only [Entry.isUsed] at hcnt
      simp only [usedCount] at hinv ⊢
      omega

lemma modify_count_step {IT : Type} {s : UnrestrictedSlots IT} {k : Nat}
    {g : IT → IT} {a : Unit} {r : Option Unit} {s2 : UnrestrictedSlots IT}
    (h : s.modify k (fun (u : Unit) it => (u, g it, u)) () = some (a, r, s2))
    (hinv : s.count = usedCount s.items) :
    s2.count = usedCount s2.items := by
  cases he : s.items[k]? with
  | none => rw [UnrestrictedSlots.modify, he] at h; cases h
  | some e =>
    cases he2 : e.isUsed with
    | true =>
      cases e with
      | Used it =>
        rw [UnrestrictedSlots.modify_used he] at h
        cases h
        have hcnt := countP_set_add Entry.isUsed s.items k
          (Entry.Used (g it)) (Entry.Used it) he
        simp only [Entry.isUsed] at hcnt
        simp only [usedCount] at hinv ⊢
        omega
      | EmptyNext _ => simp [Entry.isUsed] at he2
      | EmptyLast => simp [Entry.isUsed] at he2
    | false =>
      rw [UnrestrictedSlots.modify_not_used he he2] at h
      cases h
      exact hinv

lemma reach_count {IT : Type} {s : UnrestrictedSlots IT} (h : Reach IT s) :
    s.count = usedCount s.items := by
  induction h with
  | new N => exact (usedCount_new IT N).symm
  | store _ hs ih =>
    rcases store_count_step hs with rfl | ⟨h1, h2⟩
    · exact ih
    · omega
  | take _ ht ih => exact take_count_step ht ih
  | modify _ hm ih => exact modify_count_step hm ih

/-- C5: in every state reachable from a freshly constructed allocator via the
public operations, the `count` field equals the number of `Used` slots. -/
theorem count_eq_used_count {IT : Type} (s : UnrestrictedSlots IT)
    (h : Reach IT s) : s.count = usedCount s.items :=
  reach_count h

/-- C5 witness: the invariant at a concrete reachable state (fresh allocator
of capacity 3 after one successful store). -/
theorem count_eq_used_count_witness :
    (⟨[Entry.EmptyLast, Entry.EmptyNext 0, Entry.Used 5], 1, 1⟩ :
        UnrestrictedSlots Nat).count =
      usedCount (⟨[Entry.EmptyLast, Entry.EmptyNext 0, Entry.Used 5], 1, 1⟩ :
        UnrestrictedSlots Nat).items :=
  count_eq_used_count _ (Reach.store (Reach.new 3)
    (by decide : (UnrestrictedSlots.new Nat 3).store 5 =
      some (Except.ok 2, ⟨[Entry.EmptyLast, Entry.EmptyNext 0, Entry.Used 5], 1, 1⟩)))

/-- C7: from any reachable state, after `take i` succeeds on a `Used` slot,
the immediately following `store` succeeds and returns the same index `i`:
the freed slot becomes the top of the free stack and is reused first. -/
theorem lifo_reuse_after_take {IT : Type} (s : UnrestrictedSlots IT)
    (i : Nat) (it x : IT) (hr : Reach IT s)
    (hk : s.items[i]? = some (Entry.Used it)) :
    ∃ s2 s3, s.take i = some (some it, s2) ∧
      s2.store x = some (Except.ok i, s3) := by
  have hlen : i < s.items.length := UnrestrictedSlots.lt_length_of_getElem? hk
  have hcnt : s.count ≤ s.items.length := by
    rw [reach_count hr]
    exact List.countP_le_length _
  have ht := UnrestrictedSlots.take_used hk
  by_cases hc : s.count = s.items.length
  · rw [if_pos hc] at ht
    have hfull2 : (s.count - 1) ≠ (s.items.set i Entry.EmptyLast).length := by
      rw [List.length_set]
      omega
    exact ⟨_, _, ht, UnrestrictedSlots.store_emptyLast x hfull2
      (List.getElem?_set_self hlen)⟩
  · rw [if_neg hc] at ht
    have hfull2 : (s.count - 1) ≠
        (s.items.set i (Entry.EmptyNext s.next_free)).length := by
      rw [List.length_set]
      omega
    exact ⟨_, _, ht, UnrestrictedSlots.store_emptyNext x hfull2
      (List.getElem?_set_self hlen)⟩

/-- C7 witness: take then store on a concrete reachable single-slot state. -/
theorem lifo_reuse_witness :
    ∃ s2 s3, (⟨[Entry.Used 5], 0, 1⟩ : UnrestrictedSlots Nat).take 0 =
        some (some 5, s2) ∧ s2.store 7 = some (Except.ok 0, s3) :=
  lifo_reuse_after_take _ 0 5 7
    (Reach.store (Reach.new 1)
      (by decide : (UnrestrictedSlots.new Nat 1).store 5 =
        some (Except.ok 0, ⟨[Entry.Used 5], 0, 1⟩)))
    (by decide)

/-- A reachable state of a capacity-2 allocator (fresh, then
`store 1; store 2; take 1; take 0`): both slots free, the free chain running
`next_free = 0 → EmptyNext 1 → EmptyLast`. -/
def bugStateBefore : UnrestrictedSlots Nat :=
  ⟨[Entry.EmptyNext 1, Entry.EmptyLast], 0, 0⟩

/-- What `take 0` leaves behind from `bugStateBefore`: the `replace` in
`take` has overwritten slot 0's `EmptyNext 1` with `EmptyLast` even though
the slot was not `Used` and `None` is returned. -/
def bugStateAfter : UnrestrictedSlots Nat :=
  ⟨[Entry.EmptyLast, Entry.EmptyLast], 0, 0⟩

lemma reach_bugStateBefore : Reach Nat bugStateBefore :=
  Reach.take
    (Reach.take
      (Reach.store
        (Reach.store (Reach.new 2)
          (by decide : (UnrestrictedSlots.new Nat 2).store 1 =
            some (Except.ok 1, ⟨[Entry.EmptyLast, Entry.Used 1], 0, 1⟩)))
        (by decide : UnrestrictedSlots.store
            (⟨[Entry.EmptyLast, Entry.Used 1], 0, 1⟩ : UnrestrictedSlots Nat) 2 =
          some (Except.ok 0, ⟨[Entry.Used 2, Entry.Used 1], 0, 2⟩)))
      (by decide : UnrestrictedSlots.take
          (⟨[Entry.Used 2, Entry.Used 1], 0, 2⟩ : UnrestrictedSlots Nat) 1 =
        some (some 1, ⟨[Entry.Used 2, Entry.EmptyLast], 1, 1⟩)))
    (by decide : UnrestrictedSlots.take
        (⟨[Entry.Used 2, Entry.EmptyLast], 1, 1⟩ : UnrestrictedSlots Nat) 0 =
      some (some 2, bugStateBefore))

lemma reach_bugStateAfter : Reach Nat bugStateAfter :=
  Reach.take reach_bugStateBefore
    (by decide : bugStateBefore.take 0 = some (none, bugStateAfter))

/-- C3 (code bug): `take` on the reachable state `bugStateBefore` at the
free slot 0 (which holds `EmptyNext 1`) returns `None` — but it is not a
no-op: the slot's entry has been overwritten with `EmptyLast` by the
unconditional `replace(&mut self.items[key], Entry::EmptyLast)`. -/
theorem take_free_slot_mutates :
    Reach Nat bugStateBefore ∧
    bugStateBefore.items[0]? = some (Entry.EmptyNext 1) ∧
    bugStateBefore.take 0 = some (none, bugStateAfter) ∧
    bugStateAfter.items[0]? = some Entry.EmptyLast ∧
    bugStateAfter ≠ bugStateBefore :=
  ⟨reach_bugStateBefore, by decide, by decide, by decide, by decide⟩

/-- Executable free-chain walk: `chainMeasure items i fuel` follows
`EmptyNext` links from `i` and returns the number of slots visited up to and
including the terminating `EmptyLast` (or `none` if the walk leaves the
chain or runs out of fuel). -/
def chainMeasure {IT : Type} (items : List (Entry IT)) : Nat → Nat → Option Nat
  | _, 0 => none
  | i, Nat.succ fuel =>
    match items[i]? with
    | some Entry.EmptyLast => some 1
    | some (Entry.EmptyNext n) => (chainMeasure items n fuel).map (· + 1)
    | _ => none

/-- C4 (code bug): `bugStateAfter` is reachable by public operations from a
fresh capacity-2 allocator, yet its free chain visits only 1 slot while
`capacity - count = 2`: the free-chain invariant is violated.  Continuing
with two stores, the second one reaches the
`unreachable!("Non-empty item in entry behind free chain")` panic in
`alloc` (the `none` result), because slot 1 was orphaned off the chain. -/
theorem free_chain_invariant_violated :
    Reach Nat bugStateAfter ∧
    chainMeasure bugStateAfter.items bugStateAfter.next_free 2 = some 1 ∧
    bugStateAfter.items.length - bugStateAfter.count = 2 ∧
    UnrestrictedSlots.store bugStateAfter 9 =
      some (Except.ok 0, ⟨[Entry.Used 9, Entry.EmptyLast], 0, 1⟩) ∧
    UnrestrictedSlots.store
      (⟨[Entry.Used 9, Entry.EmptyLast], 0, 1⟩ : UnrestrictedSlots Nat) 10 = none :=
  ⟨reach_bugStateAfter, by decide, by decide, by decide, by decide⟩

/-- The free chain as a relation: `FreeChain items i l` holds when following
`EmptyNext` links from slot `i` visits exactly the slots in `l`, in order,
ending at a slot holding `EmptyLast`. -/
inductive FreeChain {IT : Type} (items : List (Entry IT)) : Nat → List Nat → Prop where
  | last {i : Nat} : items[i]? = some Entry.EmptyLast → FreeChain items i [i]
  | next {i n : Nat} {l : List Nat} :
      items[i]? = some (Entry.EmptyNext n) → FreeChain items n l →
      FreeChain items i (i :: l)

lemma freeChain_det {IT : Type} {items : List (Entry IT)} {i : Nat}
    {l1 l2 : List Nat} (h1 : FreeChain items i l1) (h2 : FreeChain items i l2) :
    l1 = l2 := by
  induction h1 generalizing l2 with
  | last hi =>
    cases h2 with
    | last _ => rfl
    | next hn _ => rw [hi] at hn; cases hn
  | next hi hc ih =>
    cases h2 with
    | last hl => rw [hi] at hl; cases hl
    | next hn hc2 =>
      rw [hi] at hn
      have hnn := Option.some.inj hn
      injection hnn with hb
      subst hb
      rw [ih hc2]

lemma freeChain_mem {IT : Type} {items : List (Entry IT)} {i : Nat}
    {l : List Nat} (h : FreeChain items i l) :
    ∀ j ∈ l, ∃ l2, FreeChain items j l2 ∧ (l2.length < l.length ∨ l2 = l) := by
  induction h with
  | last hi =>
    intro j hj
    rw [List.mem_singleton] at hj
    subst hj
    exact ⟨_, FreeChain.last hi, Or.inr rfl⟩
  | next hi hc ih =>
    intro j hj
    rcases List.mem_cons.mp hj with rfl | hj2
    · exact ⟨_, FreeChain.next hi hc, Or.inr rfl⟩
    · obtain ⟨l2, h2, hl⟩ := ih j hj2
      refine ⟨l2, h2, Or.inl ?_⟩
      rcases hl with hlen | rfl
      · simp only [List.length_cons]; omega
      · simp

lemma freeChain_head_not_mem {IT : Type} {items : List (Entry IT)}
    {i n : Nat} {t : List Nat} (hi : items[i]? = some (Entry.EmptyNext n))
    (hc : FreeChain items n t) : i ∉ t := by
  intro hmem
  obtain ⟨l2, h2, hl⟩ := freeChain_mem hc i hmem
  have hdet := freeChain_det h2 (FreeChain.next hi hc)
  subst hdet
  rcases hl with hlen | heq
  · simp only [List.length_cons] at hlen; omega
  · have := congrArg List.length heq
    simp only [List.length_cons] at this; omega

lemma freeChain_set_not_mem {IT : Type} {items : List (Entry IT)} {j : Nat}
    {l : List Nat} (h : FreeChain items j l) {p : Nat} (hp : p ∉ l)
    (e : Entry IT) : FreeChain (items.set p e) j l := by
  induction h with
  | last hi =>
    rw [List.mem_singleton] at hp
    exact FreeChain.last (by rw [List.getElem?_set_ne (by omega)]; exact hi)
  | next hi hc ih =>
    rw [List.mem_cons] at hp
    push_neg at hp
    exact FreeChain.next
      (by rw [List.getElem?_set_ne (by omega)]; exact hi) (ih hp.2)

/-- The allocator invariant maintained by `new` and `store`: `count` equals
the number of `Used` slots, and — unless the pool is full — the free chain
from `next_free` visits exactly `capacity - count` slots ending in one
`EmptyLast`. -/
def SlotsInv {IT : Type} (s : UnrestrictedSlots IT) : Prop :=
  s.count = usedCount s.items ∧
  (s.count < s.items.length →
    ∃ l, FreeChain s.items s.next_free l ∧ l.length = s.items.length - s.count)

/-- The slot indices `[i, i-1, ..., 0]`: the free chain of a fresh pool. -/
def descChain : Nat → List Nat
  | 0 => [0]
  | Nat.succ i => (i + 1) :: descChain i

lemma descChain_length (i : Nat) : (descChain i).length = i + 1 := by
  induction i with
  | zero => rfl
  | succ i ih => simp [descChain, ih]

lemma new_getElem? (IT : Type) {N i : Nat} (h : i < N) :
    (UnrestrictedSlots.new IT N).items[i]? =
      some (UnrestrictedSlots.freshEntry IT i) := by
  simp [UnrestrictedSlots.new, List.getElem?_range h]

lemma freeChain_new (IT : Type) {N i : Nat} (h : i < N) :
    FreeChain (UnrestrictedSlots.new IT N).items i (descChain i) := by
  induction i with
  | zero => exact FreeChain.last (by rw [new_getElem? IT h]; rfl)
  | succ j ih =>
    exact FreeChain.next (by rw [new_getElem? IT h]; rfl) (ih (by omega))

lemma length_items_new (IT : Type) (N : Nat) :
    (UnrestrictedSlots.new IT N).items.length = N := by
  simp [UnrestrictedSlots.new]

lemma inv_new (IT : Type) (N : Nat) : SlotsInv (UnrestrictedSlots.new IT N) := by
  refine ⟨(usedCount_new IT N).symm, fun hlt => ?_⟩
  have hN : 0 < N := by simpa [UnrestrictedSlots.new] using hlt
  have hfc : FreeChain (UnrestrictedSlots.new IT N).items (N - 1) (descChain (N - 1)) :=
    freeChain_new IT (show N - 1 < N by omega)
  refine ⟨descChain (N - 1), hfc, ?_⟩
  rw [descChain_length, length_items_new]
  have hc0 : (UnrestrictedSlots.new IT N).count = 0 := rfl
  rw [hc0]
  omega

lemma inv_store {IT : Type} {s : UnrestrictedSlots IT} {x : IT}
    {r : Except IT Nat} {s2 : UnrestrictedSlots IT}
    (hi : SlotsInv s) (h : s.store x = some (r, s2)) : SlotsInv s2 := by
  obtain ⟨hcnt, hchain⟩ := hi
  rw [UnrestrictedSlots.store, UnrestrictedSlots.alloc] at h
  by_cases hfull : s.is_full = true
  · rw [if_pos hfull] at h
    cases h
    exact ⟨hcnt, hchain⟩
  · rw [if_neg hfull] at h
    have hne : s.count ≠ s.items.length := by
      have hf : s.is_full = false := by revert hfull; cases s.is_full <;> simp
      exact UnrestrictedSlots.is_full_false_iff.mp hf
    have hused : usedCount s.items ≤ s.items.length := List.countP_le_length _
    have hlt : s.count < s.items.length := by omega
    obtain ⟨l, hc, hlen⟩ := hchain hlt
    cases hc with
    | last hlast =>
      rw [hlast] at h
      cases h
      constructor
      · have := countP_set_add Entry.isUsed s.items s.next_free
          (Entry.Used x) Entry.EmptyLast hlast
        simp only [usedCount] at hcnt ⊢
        simp [Entry.isUsed] at this
        omega
      · intro hlt2
        exfalso
        simp only [List.length_set, List.length_singleton] at hlt2 hlen
        omega
    | next hnext htail =>
      rw [hnext] at h
      cases h
      constructor
      · have := countP_set_add Entry.isUsed s.items s.next_free
          (Entry.Used x) (Entry.EmptyNext _) hnext
        simp only [usedCount] at hcnt ⊢
        simp [Entry.isUsed] at this
        omega
      · intro hlt2
        simp only [List.length_set] at hlt2
        refine ⟨_, freeChain_set_not_mem htail
          (freeChain_head_not_mem hnext htail) _, ?_⟩
        simp only [List.length_set, List.length_cons] at hlen ⊢
        omega

lemma store_ok_of_inv {IT : Type} {s : UnrestrictedSlots IT} (x : IT)
    (hi : SlotsInv s) (hlt : s.count < s.items.length) :
    ∃ i s2, s.store x = some (Except.ok i, s2) := by
  obtain ⟨l, hc, _⟩ := hi.2 hlt
  have hfull : s.count ≠ s.items.length := by omega
  cases hc with
  | last hlast => exact ⟨_, _, UnrestrictedSlots.store_emptyLast x hfull hlast⟩
  | next hnext _ => exact ⟨_, _, UnrestrictedSlots.store_emptyNext x hfull hnext⟩

/-- The state after `k` successive `store` calls (items `f 0 … f (k-1)`) on
a fresh allocator of capacity `N`; `none` if any of them failed or
faulted. -/
def afterStores (IT : Type) (N : Nat) (f : Nat → IT) : Nat → Option (UnrestrictedSlots IT)
  | 0 => some (UnrestrictedSlots.new IT N)
  | Nat.succ k =>
    match afterStores IT N f k with
    | none => none
    | some s =>
      match s.store (f k) with
      | some (Except.ok _, s2) => some s2
      | _ => none

lemma afterStores_spec (IT : Type) (N : Nat) (f : Nat → IT) :
    ∀ k, k ≤ N → ∃ s, afterStores IT N f k = some s ∧ s.count = k ∧
      s.items.length = N ∧ SlotsInv s := by
  intro k
  induction k with
  | zero =>
    intro _
    exact ⟨_, rfl, rfl, length_items_new IT N, inv_new IT N⟩
  | succ k ih =>
    intro hk
    obtain ⟨s, hs, hcount, hlen, hinv⟩ := ih (by omega)
    obtain ⟨i, s2, hstore⟩ := store_ok_of_inv (f k) hinv (by omega)
    have hframe := store_ok_frame s (f k) i s2 hstore
    refine ⟨s2, ?_, ?_, ?_, inv_store hinv hstore⟩
    · simp only [afterStores, hs]
      rw [hstore]
    · omega
    · have := hframe.2.2.2
      simp only [UnrestrictedSlots.capacity] at this
      omega

/-- C6: for every capacity `N ≥ 0`, starting from a fresh allocator, each of
the first `N` stores succeeds (for every `k ≤ N` the state after `k` stores
exists and has `count = k`, so each store increments `count` by one), and
once `k = N` the next store fails, returning `Err` with exactly the item
passed in and leaving the state — in particular `count = N` — unchanged. -/
theorem stores_fill_then_err {IT : Type} (N k : Nat) (f : Nat → IT) (y : IT)
    (hk : k ≤ N) :
    ∃ s, afterStores IT N f k = some s ∧ s.count = k ∧
      (k = N → s.store y = some (Except.error y, s)) := by
  obtain ⟨s, hs, hcount, hlen, _⟩ := afterStores_spec IT N f k hk
  exact ⟨s, hs, hcount, fun hkN =>
    UnrestrictedSlots.store_full y (by omega)⟩

/-- C6 witness: capacity 2, both stores succeed and fill the pool, the third
fails returning the item. -/
theorem stores_fill_then_err_witness :
    ∃ s, afterStores Nat 2 (fun n => n + 10) 2 = some s ∧ s.count = 2 ∧
      (2 = 2 → s.store 99 = some (Except.error 99, s)) :=
  stores_fill_then_err 2 2 (fun n => n + 10) 99 (by decide)


lemma alloc_none_eq {IT : Type} {s s1 : UnrestrictedSlots IT}
    (h : s.alloc = some (none, s1)) : s1 = s := by
  rw [UnrestrictedSlots.alloc] at h
  by_cases hf : s.is_full = true
  · rw [if_pos hf] at h
    cases h
    rfl
  · rw [if_neg hf] at h
    cases he : s.items[s.next_free]? with
    | none => rw [he] at h; cases h
    | some e =>
      cases e with
      | Used _ => rw [he] at h; cases h
      | EmptyNext n => rw [he] at h; simp at h
      | EmptyLast => rw [he] at h; simp at h

/-- A failing `store` hands back exactly the item passed in and leaves the
state untouched. -/
lemma store_error_eq {IT : Type} {s : UnrestrictedSlots IT} {x y : IT}
    {s2 : UnrestrictedSlots IT}
    (h : s.store x = some (Except.error y, s2)) : y = x ∧ s2 = s := by
  rw [UnrestrictedSlots.store] at h
  cases ha : s.alloc with
  | none => rw [ha] at h; cases h
  | some q =>
    obtain ⟨oi, s1⟩ := q
    cases oi with
    | none =>
      rw [ha] at h
      cases h
      exact ⟨rfl, alloc_none_eq ha⟩
    | some i =>
      rw [ha] at h
      simp only at h
      cases h

/-- Word width of `usize` (the crate targets here are 64-bit; only the
generational-handle layer depends on it). -/
def usizeBits : Nat := 64

/-- `usize::leading_zeros` for values below `2 ^ usizeBits`:
`usizeBits` minus the bit length of the value. -/
def leadingZeros (x : Nat) : Nat := usizeBits - Nat.size x

/-- `SlotMap<IT, N>` from `src/slotmap.rs`.  Its `raw` field has type
`RawSlots<(usize, IT), N>`.  `RawSlots` itself is not among the provided
sources (only this wrapper and its tests are); modelled from the spec:
§4.4 "wraps an Unrestricted-style allocator storing `(check_value, item)`
pairs" — the in-repo unrestricted allocator (`src/unrestricted.rs`,
identical algorithm in `src/lib.rs`) over `Nat × IT` pairs. -/
structure SlotMap (IT : Type) (N : Nat) where
  raw : UnrestrictedSlots (Nat × IT)
  generation : Nat
  deriving DecidableEq

namespace SlotMap

variable {IT T : Type} {N : Nat}

/-- `SlotMap::new()`: an empty raw pool and generation 0. -/
def new (IT : Type) (N : Nat) : SlotMap IT N :=
  { raw := UnrestrictedSlots.new (Nat × IT) N
    generation := 0 }

/-- `pull_generation()`: `self.generation = self.generation.wrapping_add(1)`
(wrapping modelled by `% 2 ^ usizeBits`), returning the new value. -/
def pull_generation (m : SlotMap IT N) : Nat × SlotMap IT N :=
  ((m.generation + 1) % 2 ^ usizeBits,
    { m with generation := (m.generation + 1) % 2 ^ usizeBits })

/-- `shiftsize()`: `size_of::<usize>() * 8 - (N.saturating_sub(1)).leading_zeros()`
— the number of bits needed for the largest valid index. -/
def shiftsize (N : Nat) : Nat := usizeBits - leadingZeros (N - 1)

/-- `build_handle(index)`: `index | (pull_generation() << shiftsize())`;
the shifted generation is truncated to the 64-bit word it is computed in. -/
def build_handle (m : SlotMap IT N) (index : Nat) : Nat × SlotMap IT N :=
  (index ||| (m.pull_generation.1 <<< shiftsize N) % 2 ^ usizeBits,
    m.pull_generation.2)

/-- `extract_index(handle)`: `handle & !(!0 << shiftsize())`, i.e. the low
`shiftsize` bits of the handle. -/
def extract_index (N : Nat) (handle : Nat) : Nat :=
  handle &&& (2 ^ shiftsize N - 1)

/-- `SlotMap::store`: store `(0, item)` raw, then build a handle from the
freshly pulled generation and the allocated index, write the handle itself
into the check field via `raw.modify`, and return the handle.  On raw-store
failure the unstored item is handed back — note that `build_handle` (and
hence `pull_generation`) is *not* reached on that path. -/
def store (m : SlotMap IT N) (item : IT) :
    Option (Except IT Nat × SlotMap IT N) :=
  match m.raw.store (0, item) with
  | none => none
  | some (Except.error (_, it), raw1) =>
      some (Except.error it, { m with raw := raw1 })
  | some (Except.ok i, raw1) =>
      match build_handle ({ m with raw := raw1 } : SlotMap IT N) i with
      | (handle, m1) =>
        match m1.raw.modify i (fun (u : Unit) p => (u, (handle, p.2), u)) () with
        | none => none
        | some (_, _, raw2) => some (Except.ok handle, { m1 with raw := raw2 })

/-- `SlotMap::take`: extract the index; proceed only when the stored check
value equals the presented handle (`raw.read … == Some(true)`); the inner
`.expect("Item was checked to be present")` is a fault (`none`). -/
def take (m : SlotMap IT N) (handle : Nat) : Option (Option IT × SlotMap IT N) :=
  match (m.raw.read (extract_index N handle)
      (fun (u : Unit) p => (u, p.1 == handle)) ()).2 with
  | some true =>
      match m.raw.take (extract_index N handle) with
      | some (some p, raw1) => some (some p.2, { m with raw := raw1 })
      | _ => none
  | _ => some (none, m)

/-- `SlotMap::read`: run the visitor only when the check value matches the
presented handle exactly; `Option.join` is Rust's `.flatten()`. -/
def read (m : SlotMap IT N) (handle : Nat) (function : IT → T) : Option T :=
  ((m.raw.read (extract_index N handle)
      (fun (u : Unit) p =>
        (u, if p.1 = handle then some (function p.2) else none)) ()).2).join

end SlotMap

/-- C9 counterexample: on a zero-capacity map the very first `store` fails
(full pool) and the generation counter stays 0, not the
`(0 + 1) % 2 ^ usizeBits = 1` of a bump-on-every-store: the failure path
returns before `pull_generation` is reached. -/
theorem generation_not_bumped_on_full_cex :
    (SlotMap.store (SlotMap.new Nat 0) 5).map (fun r => r.2.generation) = some 0 ∧
    (0 + 1) % 2 ^ usizeBits ≠ 0 := by
  constructor
  · rfl
  · decide

/-- C9 (amended): every *successful* `store` call advances the map's
generation counter by exactly one, wrapping modulo `2 ^ usizeBits` and never
faulting, independent of which slot was allocated; a `store` that fails
because the map is full returns `Err` with the original item and leaves the
generation counter unchanged. -/
theorem generation_bump_on_success {IT : Type} {N : Nat} (m : SlotMap IT N)
    (item : IT) (r : Except IT Nat) (m2 : SlotMap IT N)
    (h : SlotMap.store m item = some (r, m2)) :
    (∀ i, r = Except.ok i → m2.generation = (m.generation + 1) % 2 ^ usizeBits) ∧
    (∀ y, r = Except.error y → y = item ∧ m2.generation = m.generation) := by
  rw [SlotMap.store] at h
  split at h
  · cases h
  · rename_i raw1 chk it heq
    cases h
    constructor
    · intro i hi
      cases hi
    · intro y hy
      cases hy
      obtain ⟨hpair, _⟩ := store_error_eq heq
      exact ⟨congrArg Prod.snd hpair, rfl⟩
  · rename_i i raw1 heq
    simp only [SlotMap.build_handle, SlotMap.pull_generation] at h
    split at h
    · cases h
    · rename_i a rr raw2 heq3
      cases h
      constructor
      · intro j hj
        rfl
      · intro y hy
        cases hy

/-- C9 witness: the amended theorem applied to a concrete successful store
on a fresh capacity-1 map (generation goes from 0 to 1). -/
theorem generation_bump_witness :
    (⟨⟨[Entry.Used (1, 5)], 0, 1⟩, 1⟩ : SlotMap Nat 1).generation =
      ((SlotMap.new Nat 1).generation + 1) % 2 ^ usizeBits := by
  have hsz : SlotMap.shiftsize 1 = 0 := by
    rw [SlotMap.shiftsize, leadingZeros]
    norm_num [Nat.size_zero]
  have hraw : (SlotMap.new Nat 1).raw.store (0, 5) =
      some (Except.ok 0, ⟨[Entry.Used (0, 5)], 0, 1⟩) := by decide
  have h : SlotMap.store (SlotMap.new Nat 1) 5 =
      some (Except.ok 1, ⟨⟨[Entry.Used (1, 5)], 0, 1⟩, 1⟩) := by
    rw [SlotMap.store, hraw]
    simp only [SlotMap.build_handle, SlotMap.pull_generation, hsz]
    norm_num
    decide
  exact (generation_bump_on_success (SlotMap.new Nat 1) 5 (Except.ok 1)
    (⟨⟨[Entry.Used (1, 5)], 0, 1⟩, 1⟩ : SlotMap Nat 1) h).1 1 rfl

lemma lor_two_pow_mod (a s k : Nat) (hk : s ≤ k) :
    (a ||| 2 ^ k) % 2 ^ s = a % 2 ^ s := by
  apply Nat.eq_of_testBit_eq
  intro i
  rw [Nat.testBit_mod_two_pow, Nat.testBit_mod_two_pow, Nat.testBit_lor]
  by_cases hi : i < s
  · have hne : k ≠ i := by omega
    simp [hi, Nat.testBit_two_pow_of_ne hne]
  · simp [hi]

lemma lor_two_pow_ne {a s : Nat} (ha : a < 2 ^ s) :
    a ||| 2 ^ s ≠ a ||| 2 ^ (s + 1) := by
  intro h
  have h1 : (a ||| 2 ^ s).testBit s = true := by
    rw [Nat.testBit_lor, Nat.testBit_two_pow_self]
    simp
  have h2 : (a ||| 2 ^ (s + 1)).testBit s = false := by
    rw [Nat.testBit_lor, Nat.testBit_two_pow_of_ne (by omega : s + 1 ≠ s),
      Nat.testBit_lt_two_pow ha]
    rfl
  rw [h, h2] at h1
  cases h1

lemma extract_index_lor_two_pow {N k : Nat} (hk : SlotMap.shiftsize N ≤ k)
    (ha : N - 1 < 2 ^ SlotMap.shiftsize N) :
    SlotMap.extract_index N ((N - 1) ||| 2 ^ k) = N - 1 := by
  rw [SlotMap.extract_index, Nat.and_pow_two_sub_one_eq_mod,
    lor_two_pow_mod _ _ _ hk, Nat.mod_eq_of_lt ha]

lemma shiftsize_facts {N : Nat} (hN : N ≤ 2 ^ 62) :
    SlotMap.shiftsize N ≤ 62 ∧ N - 1 < 2 ^ SlotMap.shiftsize N := by
  have hlt : N - 1 < 2 ^ 62 := by
    have h0 : (0:Nat) < 2 ^ 62 := by positivity
    omega
  have hsz : Nat.size (N - 1) ≤ 62 := Nat.size_le.mpr hlt
  have hself : N - 1 < 2 ^ Nat.size (N - 1) := Nat.lt_size_self (N - 1)
  have heq : SlotMap.shiftsize N = Nat.size (N - 1) := by
    unfold SlotMap.shiftsize leadingZeros usizeBits
    omega
  rw [heq]
  exact ⟨hsz, hself⟩

lemma shl_one_mod {s : Nat} (hs : s ≤ 62) :
    ((1 : Nat) <<< s) % 2 ^ usizeBits = 2 ^ s := by
  rw [Nat.shiftLeft_eq, one_mul, Nat.mod_eq_of_lt]
  unfold usizeBits
  exact Nat.pow_lt_pow_right (by norm_num) (by omega)

lemma shl_two_mod {s : Nat} (hs : s ≤ 62) :
    ((2 : Nat) <<< s) % 2 ^ usizeBits = 2 ^ (s + 1) := by
  rw [Nat.shiftLeft_eq]
  rw [show (2 : Nat) * 2 ^ s = 2 ^ (s + 1) from (pow_succ' 2 s).symm]
  rw [Nat.mod_eq_of_lt]
  unfold usizeBits
  exact Nat.pow_lt_pow_right (by norm_num) (by omega)

/-- Symbolic execution of a successful `SlotMap::store`: raw store at `i`,
generation pull, handle build, check-field write. -/
lemma slotmap_store_eq {IT : Type} {N : Nat} (m : SlotMap IT N) (x : IT)
    {i : Nat} {raw1 : UnrestrictedSlots (Nat × IT)}
    (hr : m.raw.store (0, x) = some (Except.ok i, raw1))
    (hc : raw1.items[i]? = some (Entry.Used (0, x))) :
    SlotMap.store m x = some
      (Except.ok (i ||| (((m.generation + 1) % 2 ^ usizeBits) <<< SlotMap.shiftsize N) % 2 ^ usizeBits),
       ⟨⟨raw1.items.set i (Entry.Used
            ((i ||| (((m.generation + 1) % 2 ^ usizeBits) <<< SlotMap.shiftsize N) % 2 ^ usizeBits), x)),
          raw1.next_free, raw1.count⟩,
        (m.generation + 1) % 2 ^ usizeBits⟩) := by
  rw [SlotMap.store, hr]
  simp only [SlotMap.build_handle, SlotMap.pull_generation]
  rw [UnrestrictedSlots.modify_used hc]

/-- Symbolic execution of a successful `SlotMap::take`: the stored check
value equals the presented handle, so the raw `take` runs. -/
lemma slotmap_take_eq {IT : Type} {N : Nat} (m : SlotMap IT N) (handle : Nat)
    {it : IT}
    (hget : m.raw.items[SlotMap.extract_index N handle]? =
      some (Entry.Used (handle, it))) :
    SlotMap.take m handle = some (some it,
      ⟨⟨m.raw.items.set (SlotMap.extract_index N handle)
          (if m.raw.count = m.raw.items.length then Entry.EmptyLast
           else Entry.EmptyNext m.raw.next_free),
        SlotMap.extract_index N handle, m.raw.count - 1⟩, m.generation⟩) := by
  rw [SlotMap.take, UnrestrictedSlots.read_used hget]
  simp only [beq_self_eq_true]
  rw [UnrestrictedSlots.take_used hget]

/-- `SlotMap::read` with a stale handle: the slot's check value differs from
the presented handle, so the visitor is skipped and `None` returned. -/
lemma slotmap_read_mismatch {IT T : Type} {N : Nat} (m : SlotMap IT N)
    (handle chk : Nat) {it : IT}
    (hget : m.raw.items[SlotMap.extract_index N handle]? =
      some (Entry.Used (chk, it)))
    (hne : chk ≠ handle) (f : IT → T) :
    SlotMap.read m handle f = none := by
  rw [SlotMap.read, UnrestrictedSlots.read_used hget]
  simp [hne]

/-- `SlotMap::read` with the live handle: the check value matches and the
visitor's result is returned. -/
lemma slotmap_read_match {IT T : Type} {N : Nat} (m : SlotMap IT N)
    (handle : Nat) {it : IT}
    (hget : m.raw.items[SlotMap.extract_index N handle]? =
      some (Entry.Used (handle, it))) (f : IT → T) :
    SlotMap.read m handle f = some (f it) := by
  rw [SlotMap.read, UnrestrictedSlots.read_used hget]
  simp

/-- First allocation from a fresh pool of capacity `N ≥ 1`: the index is
`N - 1` (the free-stack top), the slot becomes `Used`, `count` becomes 1. -/
lemma fresh_store_top (IT : Type) {N : Nat} (hN1 : 1 ≤ N) (x : IT) :
    ∃ nf1, (UnrestrictedSlots.new IT N).store x = some (Except.ok (N - 1),
      ⟨(UnrestrictedSlots.new IT N).items.set (N - 1) (Entry.Used x), nf1, 1⟩) := by
  have hc0 : (UnrestrictedSlots.new IT N).count = 0 := rfl
  have hfull : (UnrestrictedSlots.new IT N).count ≠
      (UnrestrictedSlots.new IT N).items.length := by
    rw [hc0, length_items_new]
    omega
  have hget : (UnrestrictedSlots.new IT N).items[N - 1]? =
      some (UnrestrictedSlots.freshEntry IT (N - 1)) := new_getElem? IT (by omega)
  rcases N with _ | _ | n
  · omega
  · exact ⟨0, UnrestrictedSlots.store_emptyLast x hfull hget⟩
  · exact ⟨n, UnrestrictedSlots.store_emptyNext x hfull hget⟩

/-- Final reads of the generational scenario: once the shared slot `N - 1`
holds the second-generation check value, the stale handle reads `None` and
the live handle reads the item. -/
lemma generational_reads {T : Type} {N : Nat} (f : Nat → T)
    (hidx : N - 1 < 2 ^ SlotMap.shiftsize N) (m3 : SlotMap Nat N)
    (hm3 : m3.raw.items[N - 1]? =
      some (Entry.Used ((N - 1) ||| 2 ^ (SlotMap.shiftsize N + 1), 6))) :
    SlotMap.read m3 ((N - 1) ||| 2 ^ SlotMap.shiftsize N) f = none ∧
    SlotMap.read m3 ((N - 1) ||| 2 ^ (SlotMap.shiftsize N + 1)) f = some (f 6) := by
  have hext1 := extract_index_lor_two_pow (Nat.le_refl _) hidx
  have hext2 := extract_index_lor_two_pow (Nat.le_succ _) hidx
  constructor
  · exact slotmap_read_mismatch m3 _ _ (by rw [hext1]; exact hm3)
      (Ne.symm (lor_two_pow_ne hidx)) f
  · exact slotmap_read_match m3 _ (by rw [hext2]; exact hm3) f

/-- C8: on a fresh generational slot map of any capacity `N ≥ 1` (bounded by
`2 ^ 62` so that the 64-bit handle arithmetic cannot overflow),
`store 5 → h1; take h1 → Some 5; store 6 → h2` yields `h1 ≠ h2`,
`read h1 f = None` and `read h2 f = Some (f 6)`, even though `h1` and `h2`
decode (via `extract_index`) to the same underlying slot index `N - 1`. -/
theorem slotmap_generational_scenario {T : Type} (N : Nat) (hN1 : 1 ≤ N)
    (hN : N ≤ 2 ^ 62) (f : Nat → T) :
    ∃ (h1 h2 : Nat) (m1 m2 m3 : SlotMap Nat N),
      SlotMap.store (SlotMap.new Nat N) 5 = some (Except.ok h1, m1) ∧
      SlotMap.take m1 h1 = some (some 5, m2) ∧
      SlotMap.store m2 6 = some (Except.ok h2, m3) ∧
      h1 ≠ h2 ∧
      SlotMap.read m3 h1 f = none ∧
      SlotMap.read m3 h2 f = some (f 6) ∧
      SlotMap.extract_index N h1 = SlotMap.extract_index N h2 := by
  obtain ⟨hs62, hidx⟩ := shiftsize_facts hN
  have hext1 : SlotMap.extract_index N ((N - 1) ||| 2 ^ SlotMap.shiftsize N) = N - 1 :=
    extract_index_lor_two_pow (Nat.le_refl _) hidx
  have hext2 : SlotMap.extract_index N
      ((N - 1) ||| 2 ^ (SlotMap.shiftsize N + 1)) = N - 1 :=
    extract_index_lor_two_pow (Nat.le_succ _) hidx
  have hlen0 : (UnrestrictedSlots.new (Nat × Nat) N).items.length = N :=
    length_items_new _ N
  obtain ⟨nf1, hraw1⟩ := fresh_store_top (Nat × Nat) hN1 (0, 5)
  have hc1 : ((UnrestrictedSlots.new (Nat × Nat) N).items.set (N - 1)
      (Entry.Used (0, 5)))[N - 1]? = some (Entry.Used (0, 5)) :=
    List.getElem?_set_self (by rw [hlen0]; omega)
  have hstep1 := slotmap_store_eq (SlotMap.new Nat N) 5 hraw1 hc1
  have hg1 : ((SlotMap.new Nat N).generation + 1) % 2 ^ usizeBits = 1 := by
    show (0 + 1) % 2 ^ usizeBits = 1
    unfold usizeBits
    norm_num
  rw [hg1, shl_one_mod hs62] at hstep1
  have hm1get : (((UnrestrictedSlots.new (Nat × Nat) N).items.set (N - 1)
        (Entry.Used (0, 5))).set (N - 1)
        (Entry.Used ((N - 1) ||| 2 ^ SlotMap.shiftsize N, 5)))[SlotMap.extract_index N
          ((N - 1) ||| 2 ^ SlotMap.shiftsize N)]? =
      some (Entry.Used ((N - 1) ||| 2 ^ SlotMap.shiftsize N, 5)) := by
    rw [hext1]
    exact List.getElem?_set_self (by rw [List.length_set, hlen0]; omega)
  have htake := slotmap_take_eq
    (⟨⟨((UnrestrictedSlots.new (Nat × Nat) N).items.set (N - 1)
          (Entry.Used (0, 5))).set (N - 1)
          (Entry.Used ((N - 1) ||| 2 ^ SlotMap.shiftsize N, 5)), nf1, 1⟩, 1⟩ : SlotMap Nat N)
    ((N - 1) ||| 2 ^ SlotMap.shiftsize N) hm1get
  rw [hext1] at htake
  simp only [List.length_set, hlen0, Nat.sub_self] at htake
  have hg2 : ((1 : Nat) + 1) % 2 ^ usizeBits = 2 := by
    unfold usizeBits
    norm_num
  by_cases hone : (1 : Nat) = N
  · rw [if_pos hone] at htake
    have he3 : ((((UnrestrictedSlots.new (Nat × Nat) N).items.set (N - 1)
          (Entry.Used (0, 5))).set (N - 1)
          (Entry.Used ((N - 1) ||| 2 ^ SlotMap.shiftsize N, 5))).set (N - 1)
          Entry.EmptyLast)[N - 1]? = some Entry.EmptyLast :=
      List.getElem?_set_self (by simp only [List.length_set, hlen0]; omega)
    have hfull3 : (0 : Nat) ≠ ((((UnrestrictedSlots.new (Nat × Nat) N).items.set (N - 1)
          (Entry.Used (0, 5))).set (N - 1)
          (Entry.Used ((N - 1) ||| 2 ^ SlotMap.shiftsize N, 5))).set (N - 1)
          Entry.EmptyLast).length := by
      simp only [List.length_set, hlen0]
      omega
    have hraw3 : UnrestrictedSlots.store
        (⟨(((UnrestrictedSlots.new (Nat × Nat) N).items.set (N - 1)
            (Entry.Used (0, 5))).set (N - 1)
            (Entry.Used ((N - 1) ||| 2 ^ SlotMap.shiftsize N, 5))).set (N - 1)
            Entry.EmptyLast, N - 1, 0⟩ : UnrestrictedSlots (Nat × Nat)) (0, 6) =
        some (Except.ok (N - 1),
          ⟨((((UnrestrictedSlots.new (Nat × Nat) N).items.set (N - 1)
            (Entry.Used (0, 5))).set (N - 1)
            (Entry.Used ((N - 1) ||| 2 ^ SlotMap.shiftsize N, 5))).set (N - 1)
            Entry.EmptyLast).set (N - 1) (Entry.Used (0, 6)), 0, 1⟩) :=
      UnrestrictedSlots.store_emptyLast (0, 6) hfull3 he3
    have hc3 : (((((UnrestrictedSlots.new (Nat × Nat) N).items.set (N - 1)
          (Entry.Used (0, 5))).set (N - 1)
          (Entry.Used ((N - 1) ||| 2 ^ SlotMap.shiftsize N, 5))).set (N - 1)
          Entry.EmptyLast).set (N - 1) (Entry.Used (0, 6)))[N - 1]? =
        some (Entry.Used (0, 6)) :=
      List.getElem?_set_self (by simp only [List.length_set, hlen0]; omega)
    have hstep2 := slotmap_store_eq
      (⟨⟨(((UnrestrictedSlots.new (Nat × Nat) N).items.set (N - 1)
          (Entry.Used (0, 5))).set (N - 1)
          (Entry.Used ((N - 1) ||| 2 ^ SlotMap.shiftsize N, 5))).set (N - 1)
          Entry.EmptyLast, N - 1, 0⟩, 1⟩ : SlotMap Nat N) 6 hraw3 hc3
    simp only [hg2] at hstep2
    rw [shl_two_mod hs62] at hstep2
    have hm3 : (((((((UnrestrictedSlots.new (Nat × Nat) N).items.set (N - 1)
          (Entry.Used (0, 5))).set (N - 1)
          (Entry.Used ((N - 1) ||| 2 ^ SlotMap.shiftsize N, 5))).set (N - 1)
          Entry.EmptyLast).set (N - 1) (Entry.Used (0, 6))).set (N - 1)
          (Entry.Used ((N - 1) ||| 2 ^ (SlotMap.shiftsize N + 1), 6))))[N - 1]? =
        some (Entry.Used ((N - 1) ||| 2 ^ (SlotMap.shiftsize N + 1), 6)) :=
      List.getElem?_set_self (by simp only [List.length_set, hlen0]; omega)
    obtain ⟨hr1, hr2⟩ := generational_reads f hidx
      (⟨⟨((((((UnrestrictedSlots.new (Nat × Nat) N).items.set (N - 1)
          (Entry.Used (0, 5))).set (N - 1)
          (Entry.Used ((N - 1) ||| 2 ^ SlotMap.shiftsize N, 5))).set (N - 1)
          Entry.EmptyLast).set (N - 1) (Entry.Used (0, 6))).set (N - 1)
          (Entry.Used ((N - 1) ||| 2 ^ (SlotMap.shiftsize N + 1), 6))), 0, 1⟩, 2⟩ :
        SlotMap Nat N) hm3
    exact ⟨(N - 1) ||| 2 ^ SlotMap.shiftsize N, (N - 1) ||| 2 ^ (SlotMap.shiftsize N + 1),
      _, _, _, hstep1, htake, hstep2, lor_two_pow_ne hidx, hr1, hr2, by rw [hext1, hext2]⟩
  · rw [if_neg hone] at htake
    have he3 : ((((UnrestrictedSlots.new (Nat × Nat) N).items.set (N - 1)
          (Entry.Used (0, 5))).set (N - 1)
          (Entry.Used ((N - 1) ||| 2 ^ SlotMap.shiftsize N, 5))).set (N - 1)
          (Entry.EmptyNext nf1))[N - 1]? = some (Entry.EmptyNext nf1) :=
      List.getElem?_set_self (by simp only [List.length_set, hlen0]; omega)
    have hfull3 : (0 : Nat) ≠ ((((UnrestrictedSlots.new (Nat × Nat) N).items.set (N - 1)
          (Entry.Used (0, 5))).set (N - 1)
          (Entry.Used ((N - 1) ||| 2 ^ SlotMap.shiftsize N, 5))).set (N - 1)
          (Entry.EmptyNext nf1)).length := by
      simp only [List.length_set, hlen0]
      omega
    have hraw3 : UnrestrictedSlots.store
        (⟨(((UnrestrictedSlots.new (Nat × Nat) N).items.set (N - 1)
            (Entry.Used (0, 5))).set (N - 1)
            (Entry.Used ((N - 1) ||| 2 ^ SlotMap.shiftsize N, 5))).set (N - 1)
            (Entry.EmptyNext nf1), N - 1, 0⟩ : UnrestrictedSlots (Nat × Nat)) (0, 6) =
        some (Except.ok (N - 1),
          ⟨((((UnrestrictedSlots.new (Nat × Nat) N).items.set (N - 1)
            (Entry.Used (0, 5))).set (N - 1)
            (Entry.Used ((N - 1) ||| 2 ^ SlotMap.shiftsize N, 5))).set (N - 1)
            (Entry.EmptyNext nf1)).set (N - 1) (Entry.Used (0, 6)), nf1, 1⟩) :=
      UnrestrictedSlots.store_emptyNext (0, 6) hfull3 he3
    have hc3 : (((((UnrestrictedSlots.new (Nat × Nat) N).items.set (N - 1)
          (Entry.Used (0, 5))).set (N - 1)
          (Entry.Used ((N - 1) ||| 2 ^ SlotMap.shiftsize N, 5))).set (N - 1)
          (Entry.EmptyNext nf1)).set (N - 1) (Entry.Used (0, 6)))[N - 1]? =
        some (Entry.Used (0, 6)) :=
      List.getElem?_set_self (by simp only [List.length_set, hlen0]; omega)
    have hstep2 := slotmap_store_eq
      (⟨⟨(((UnrestrictedSlots.new (Nat × Nat) N).items.set (N - 1)
          (Entry.Used (0, 5))).set (N - 1)
          (Entry.Used ((N - 1) ||| 2 ^ SlotMap.shiftsize N, 5))).set (N - 1)
          (Entry.EmptyNext nf1), N - 1, 0⟩, 1⟩ : SlotMap Nat N) 6 hraw3 hc3
    simp only [hg2] at hstep2
    rw [shl_two_mod hs62] at hstep2
    have hm3 : (((((((UnrestrictedSlots.new (Nat × Nat) N).items.set (N - 1)
          (Entry.Used (0, 5))).set (N - 1)
          (Entry.Used ((N - 1) ||| 2 ^ SlotMap.shiftsize N, 5))).set (N - 1)
          (Entry.EmptyNext nf1)).set (N - 1) (Entry.Used (0, 6))).set (N - 1)
          (Entry.Used ((N - 1) ||| 2 ^ (SlotMap.shiftsize N + 1), 6))))[N - 1]? =
        some (Entry.Used ((N - 1) ||| 2 ^ (SlotMap.shiftsize N + 1), 6)) :=
      List.getElem?_set_self (by simp only [List.length_set, hlen0]; omega)
    obtain ⟨hr1, hr2⟩ := generational_reads f hidx
      (⟨⟨((((((UnrestrictedSlots.new (Nat × Nat) N).items.set (N - 1)
          (Entry.Used (0, 5))).set (N - 1)
          (Entry.Used ((N - 1) ||| 2 ^ SlotMap.shiftsize N, 5))).set (N - 1)
          (Entry.EmptyNext nf1)).set (N - 1) (Entry.Used (0, 6))).set (N - 1)
          (Entry.Used ((N - 1) ||| 2 ^ (SlotMap.shiftsize N + 1), 6))), nf1, 1⟩, 2⟩ :
        SlotMap Nat N) hm3
    exact ⟨(N - 1) ||| 2 ^ SlotMap.shiftsize N, (N - 1) ||| 2 ^ (SlotMap.shiftsize N + 1),
      _, _, _, hstep1, htake, hstep2, lor_two_pow_ne hidx, hr1, hr2, by rw [hext1, hext2]⟩

/-- C8 witness: the scenario at capacity 8 (matching the crate's
`key_reuse_triggers` test). -/
theorem slotmap_generational_witness :
    ∃ (h1 h2 : Nat) (m1 m2 m3 : SlotMap Nat 8),
      SlotMap.store (SlotMap.new Nat 8) 5 = some (Except.ok h1, m1) ∧
      SlotMap.take m1 h1 = some (some 5, m2) ∧
      SlotMap.store m2 6 = some (Except.ok h2, m3) ∧
      h1 ≠ h2 ∧
      SlotMap.read m3 h1 (fun n => n * 2) = none ∧
      SlotMap.read m3 h2 (fun n => n * 2) = some 12 ∧
      SlotMap.extract_index 8 h1 = SlotMap.extract_index 8 h2 :=
  slotmap_generational_scenario 8 (by decide) (by decide) (fun n => n * 2)
